import Mathlib

set_option maxRecDepth 100000

/-!
# Verification of the Sidekick audio-capture pipeline

Shallow embedding of the repository's real-time audio capture core:

* `AudioTap` — the Swift capture process (`AudioCaptureCLI/main.swift`):
  per-source ring buffers, the mixer/framer loop (`flushIfReady`), the
  RMS-based voice-activity gate, and the raw PCM output stream.
* `AudioCaptureHost` — the Electron host bridge
  (`src/main/utils/audio-capture.ts`): accumulation buffer snapshot
  (`getAudioBufferBase64`), buffer clearing, and the `stopAudioCapture`
  process-termination protocol.

Machine `Int16` samples are embedded as `ℤ` with explicit clamping to
`[-32768, 32767]`; `Float` arithmetic of the mixer is embedded as exact
rational arithmetic (the spec's own tolerance note licenses this); byte
buffers are `List ℕ` with each element a byte value.
-/

namespace Sidekick

/-! ## Int16 little-endian byte serialization

The Swift code emits each mixed `Int16` sample with
`withUnsafeBytes(of: &valueToWrite) { outData.append(contentsOf: $0) }`,
i.e. two bytes, little-endian, two's complement. -/

/-- Two's-complement little-endian byte pair of an `Int16` value. -/
def int16LEBytes (v : ℤ) : List ℕ :=
  [(v.emod 65536).toNat % 256, (v.emod 65536).toNat / 256]

/-- Decode one little-endian two's-complement `Int16` from two bytes. -/
def decodeInt16 (b0 b1 : ℕ) : ℤ :=
  if b0 + 256 * b1 < 32768 then ((b0 + 256 * b1 : ℕ) : ℤ)
  else ((b0 + 256 * b1 : ℕ) : ℤ) - 65536

/-- Decode a flat byte list into its sequence of `Int16` samples
(consecutive little-endian pairs). -/
def decodePairs : List ℕ → List ℤ
  | b0 :: b1 :: rest => decodeInt16 b0 b1 :: decodePairs rest
  | _ => []

theorem int16LEBytes_length (v : ℤ) : (int16LEBytes v).length = 2 := rfl

theorem decodeInt16_int16LEBytes (v : ℤ) (h1 : -32768 ≤ v) (h2 : v ≤ 32767) :
    decodeInt16 ((v.emod 65536).toNat % 256) ((v.emod 65536).toNat / 256) = v := by
  have e1 : 0 ≤ v.emod 65536 := Int.emod_nonneg v (by norm_num)
  have e2 : v.emod 65536 < 65536 := Int.emod_lt_of_pos v (by norm_num)
  have e3 : v.emod 65536 + 65536 * (v.ediv 65536) = v := Int.emod_add_ediv v 65536
  obtain ⟨n, hn⟩ : ∃ n : ℕ, v.emod 65536 = (n : ℤ) :=
    ⟨(v.emod 65536).toNat, (Int.toNat_of_nonneg e1).symm⟩
  rw [hn] at e1 e2 e3 ⊢
  rw [Int.toNat_natCast]
  unfold decodeInt16
  split <;> omega

theorem decodePairs_int16LEBytes_cons (v : ℤ) (rest : List ℕ)
    (h1 : -32768 ≤ v) (h2 : v ≤ 32767) :
    decodePairs (int16LEBytes v ++ rest) = v :: decodePairs rest := by
  have hrw : int16LEBytes v ++ rest =
      ((v.emod 65536).toNat % 256) :: ((v.emod 65536).toNat / 256) :: rest := rfl
  rw [hrw, decodePairs, decodeInt16_int16LEBytes v h1 h2]

/-- Decoding the concatenation of the encodings of in-range samples
recovers the samples. -/
theorem decodePairs_flatten_map (l : List ℤ)
    (h : ∀ v ∈ l, -32768 ≤ v ∧ v ≤ 32767) :
    decodePairs (l.map int16LEBytes).flatten = l := by
  induction l with
  | nil => rfl
  | cons x xs ih =>
    have hx := h x (List.mem_cons_self x xs)
    simp only [List.map_cons, List.flatten_cons]
    rw [decodePairs_int16LEBytes_cons x _ hx.1 hx.2,
      ih (fun v hv => h v (List.mem_cons_of_mem x hv))]

/-- As `decodePairs_flatten_map`, with the sample list given by a map. -/
theorem decodePairs_flatten_map_comp {β : Type} (g : β → ℤ) (l : List β)
    (h : ∀ x ∈ l, -32768 ≤ g x ∧ g x ≤ 32767) :
    decodePairs ((l.map (fun x => int16LEBytes (g x))).flatten) = l.map g := by
  induction l with
  | nil => rfl
  | cons x xs ih =>
    have hx := h x (List.mem_cons_self x xs)
    simp only [List.map_cons, List.flatten_cons]
    rw [decodePairs_int16LEBytes_cons (g x) _ hx.1 hx.2,
      ih (fun y hy => h y (List.mem_cons_of_mem x hy))]

end Sidekick

namespace AudioTap

/-!
## Capture process (`AudioCaptureCLI/main.swift`, class `AudioTap`)

Ring buffers are a fixed backing store of `bufferCapacity` `Int16` cells
with a read cursor (`head`) and a count of valid samples; we model the
store as a total function `ℕ → ℤ` (only indices `< bufferCapacity` are
ever read or written).  `Float` values are modelled as exact rationals,
and `Int16` samples as integers.
-/

/-- `bufferCapacity = 16_000` (1 s of 16 kHz audio, 10 chunks). -/
def bufferCapacity : ℕ := 16000

/-- `framesPerChunk = 1_600` (100 ms at 16 kHz). -/
def framesPerChunk : ℕ := 1600

/-- `bytesPerChunk = 1_600 * 2` (each `Int16` sample is 2 bytes). -/
def bytesPerChunk : ℕ := 1600 * 2

/-- `vadOpenThresholdRMS = 150.0`. -/
def vadOpenThresholdRMS : ℚ := 150

/-- `vadCloseThresholdRMS = 100.0`. -/
def vadCloseThresholdRMS : ℚ := 100

/-- One ring buffer (`sysBuf`/`sysHead`/`sysCount`, and the `mic` twin). -/
structure Ring where
  buf : ℕ → ℤ
  head : ℕ
  count : ℕ

/-- Read the sample at logical offset `i` from the read cursor:
`buf[(head + i) % bufferCapacity]`. -/
def ringRead (r : Ring) (i : ℕ) : ℤ :=
  r.buf ((r.head + i) % bufferCapacity)

/-- Pointwise store update. -/
def setAt (f : ℕ → ℤ) (i : ℕ) (x : ℤ) : ℕ → ℤ :=
  fun j => if j = i then x else f j

/-- Write a block at consecutive indices starting at `s` (one `memcpy`). -/
def writeRun (f : ℕ → ℤ) (s : ℕ) : List ℤ → (ℕ → ℤ)
  | [] => f
  | x :: xs => writeRun (setAt f s x) (s + 1) xs

/-- `appendToRingBuffer`: append an incoming block, truncating it to the
remaining space.  Mirrors the source: `availableSpace = capacity - count`;
on overflow only `availableSpace` frames are copied and the excess count
is logged (returned here as the second component); the copy lands at
`tail = (head + count) % capacity`, split into two `memcpy`s when it
wraps; finally `count += framesActuallyCopied`. -/
def appendToRingBuffer (r : Ring) (src : List ℤ) : Ring × ℕ :=
  let availableSpace := bufferCapacity - r.count
  let framesToCopy := if availableSpace < src.length then availableSpace else src.length
  let dropped := if availableSpace < src.length then src.length - availableSpace else 0
  if framesToCopy = 0 then (r, dropped)
  else
    let tail := (r.head + r.count) % bufferCapacity
    let buf' :=
      if tail + framesToCopy ≤ bufferCapacity then
        writeRun r.buf tail (src.take framesToCopy)
      else
        let firstPartCount := bufferCapacity - tail
        writeRun (writeRun r.buf tail (src.take firstPartCount)) 0
          ((src.take framesToCopy).drop firstPartCount)
    ({ buf := buf', head := r.head, count := r.count + framesToCopy }, dropped)

/-- Consume `n` samples: advance the read cursor and decrement the count
(`micHead = (micHead + framesPerChunk) % bufferCapacity;
micCount -= framesPerChunk`). -/
def consume (r : Ring) (n : ℕ) : Ring :=
  { buf := r.buf, head := (r.head + n) % bufferCapacity, count := r.count - n }

/-- Swift's `Int(_: Float)` conversion: truncation toward zero. -/
def truncQ (q : ℚ) : ℤ := q.num.tdiv (q.den : ℤ)

/-- `min(max(mixedInt, Int(Int16.min)), Int(Int16.max))`. -/
def clampI16 (v : ℤ) : ℤ := min (max v (-32768)) 32767

/-- The VAD hysteresis step (`flushIfReady`'s gate): while `Active`, drop
to `Silent` only when the loudness falls below the close threshold; while
`Silent`, open only when it reaches the open threshold (`rms >=
vadOpenThresholdRMS`).  `false` is `Silent`, `true` is `Active`.  Stated
over any linear order so that it can be compared at both `ℚ` (squared
thresholds against the mean square) and `ℝ` (the source's thresholds
against `rms = sqrt(meanSquare)`). -/
def vadGate {α : Type} [LinearOrder α] (openThr closeThr : α)
    (active : Bool) (rms : α) : Bool :=
  if active then
    if rms < closeThr then false else true
  else
    if openThr ≤ rms then true else false

/-- The mixer loop body of `flushIfReady`: for each `i < framesPerChunk`
read the mic sample (and the system sample if a full system chunk is
available, else `0.0`), mix with equal `0.707` weights, record the
unclamped mix for the RMS pass, truncate to `Int`, clamp to the `Int16`
range and append the two little-endian bytes to the output data.
Returns `(outData, mixedSamplesForRMS)`. -/
def mixChunk (sys mic : Ring) (present : Bool) : List ℕ × List ℚ :=
  (List.range framesPerChunk).foldl
    (fun acc i =>
      let micSampleFloat : ℚ := ((ringRead mic i : ℤ) : ℚ)
      let sysSampleFloat : ℚ := if present then ((ringRead sys i : ℤ) : ℚ) else 0
      let mixedFloat := sysSampleFloat * (707 / 1000) + micSampleFloat * (707 / 1000)
      let clamped := clampI16 (truncQ mixedFloat)
      (acc.1 ++ Sidekick.int16LEBytes clamped, acc.2 ++ [mixedFloat]))
    ([], [])

/-- The unclamped mixed value at position `i`, as the spec writes it:
`sys*0.707 + mic*0.707` with silence substituted for a starved system
buffer. -/
def specMixedValue (sys mic : Ring) (present : Bool) (i : ℕ) : ℚ :=
  (if present then ((ringRead sys i : ℤ) : ℚ) else 0) * (707 / 1000) +
    ((ringRead mic i : ℤ) : ℚ) * (707 / 1000)

/-- One processed 100 ms frame, instrumented: its output bytes, its mean
square (the RMS is its square root), the gate state after the frame's
transition, and whether the frame was written to stdout. -/
structure ChunkEntry where
  bytes : List ℕ
  meanSquare : ℚ
  vadAfter : Bool
  emitted : Bool

/-- The mutable capture state: both ring buffers and the gate flag
(`vadIsCurrentlyActive`). -/
structure TapState where
  sys : Ring
  mic : Ring
  vad : Bool

/-- The process starts with zeroed buffers, zero cursors and counts, and
`vadIsCurrentlyActive = false`. -/
def initialState : TapState :=
  { sys := { buf := fun _ => 0, head := 0, count := 0 },
    mic := { buf := fun _ => 0, head := 0, count := 0 },
    vad := false }

/-- `systemAudioIsEffectivelyPresent = sysCount >= framesPerChunk`. -/
def chunkPresent (st : TapState) : Bool :=
  decide (framesPerChunk ≤ st.sys.count)

/-- One loop iteration's `meanSquare = sumOfSquares / Float(framesPerChunk)`,
with `sumOfSquares` accumulated over `mixedSamplesForRMS` exactly as in the
source's second pass. -/
def chunkMeanSquare (st : TapState) : ℚ :=
  ((mixChunk st.sys st.mic (chunkPresent st)).2.foldl
    (fun acc s => acc + s * s) 0) / (framesPerChunk : ℚ)

/-- The gate flag after one loop iteration.  The source compares
`rms = sqrt(meanSquare)` against the thresholds; since `sqrt` preserves
order this equals comparing `meanSquare` against the squared thresholds
(theorem `vadGate_sq_eq` below), which keeps this definition
executable. -/
def stepVad (st : TapState) : Bool :=
  vadGate (vadOpenThresholdRMS ^ 2) (vadCloseThresholdRMS ^ 2)
    st.vad (chunkMeanSquare st)

/-- The capture state after one loop iteration: the mic chunk is always
consumed; the system chunk only when a full one was available
(`if systemAudioIsEffectivelyPresent`). -/
def stepState (st : TapState) : TapState :=
  { sys := if chunkPresent st then consume st.sys framesPerChunk else st.sys,
    mic := consume st.mic framesPerChunk,
    vad := stepVad st }

/-- The frame record of one loop iteration: the written bytes (`outData`),
the mean square, the post-transition gate flag, and the write decision
(`if vadIsCurrentlyActive { out.write(outData) }` — written iff the gate
is `Active` after its transition). -/
def stepEntry (st : TapState) : ChunkEntry :=
  { bytes := (mixChunk st.sys st.mic (chunkPresent st)).1,
    meanSquare := chunkMeanSquare st,
    vadAfter := stepVad st,
    emitted := stepVad st }

/-- `flushIfReady`: `while micCount >= framesPerChunk`, mix one chunk
(zero-filling the system side when `sysCount < framesPerChunk`), compute
the frame's loudness, consume the chunks, step the VAD gate, and write
the chunk to stdout iff the gate is `Active` after the step.  Returns the
list of processed frames (in order, whether emitted or not) and the
final state. -/
def flushIfReady (st : TapState) : List ChunkEntry × TapState :=
  if _h : framesPerChunk ≤ st.mic.count then
    let next := flushIfReady (stepState st)
    (stepEntry st :: next.1, next.2)
  else
    ([], st)
termination_by st.mic.count
decreasing_by
  simp only [stepState, consume]
  have hfpc : framesPerChunk = 1600 := rfl
  omega

/-- The PCM payload bytes passed to `out.write(outData)` during one
`flushIfReady` run: the concatenation of the frames the gate let
through.  This is only the `out.write` path — the source additionally
sends diagnostic `print` text lines to the *same* standard output
(`out` is `FileHandle.standardOutput` and Swift's `print` also writes
to standard output), so the full byte stream on that channel is NOT
this list alone; see `StdoutWrite`/`flushIfReadyStdout` below. -/
def emittedBytes (st : TapState) : List ℕ :=
  (((flushIfReady st).1.filter (fun e => e.emitted)).map (fun e => e.bytes)).flatten

/-- One write to the capture process's standard output.  Both the PCM
`out.write(outData)` (`out = FileHandle.standardOutput`) and Swift's
`print(...)` target standard output — the single channel the host
bridge's stdout handler accumulates — so diagnostic text lines
interleave with the PCM frames. -/
inductive StdoutWrite
  | pcm (bytes : List ℕ)
  | log (line : List ℕ)
  deriving DecidableEq

/-- The standard-output writes of one `flushIfReady` run, in order: for
every processed frame, `out.write(outData)` followed by the
`🎤🔊 Audio chunk written (RMS: ...)` print when the gate is `Active`,
or the `🎤🔇 Audio chunk silent (RMS: ...)` print alone when it is not.
The rendered text of each diagnostic line depends on runtime float
formatting (`String(format: "%.2f", rms)`) and the buffer counts, so
the rendering is a parameter mapping each frame to the UTF-8 bytes of
its log line (terminator included). -/
def flushIfReadyStdout (render : ChunkEntry → List ℕ) (st : TapState) :
    List StdoutWrite :=
  ((flushIfReady st).1.map (fun e =>
    if e.emitted then [StdoutWrite.pcm e.bytes, StdoutWrite.log (render e)]
    else [StdoutWrite.log (render e)])).flatten

/-- The UTF-8 bytes, `print`'s newline terminator included, of the fixed
startup diagnostic `print("✅ AudioTap fully started — mixing system +
mic…")` that `start()` sends to standard output before any PCM frame
(its text involves no runtime formatting, so it is fully determined by
the source). -/
def startupLogLine : List ℕ :=
  [226, 156, 133, 32, 65, 117, 100, 105, 111, 84, 97, 112, 32, 102, 117,
   108, 108, 121, 32, 115, 116, 97, 114, 116, 101, 100, 32, 226, 128, 148,
   32, 109, 105, 120, 105, 110, 103, 32, 115, 121, 115, 116, 101, 109, 32,
   43, 32, 109, 105, 99, 226, 128, 166, 10]

/-! ### List access helpers -/

theorem getD_take (l : List ℤ) (n k : ℕ) (h : k < n) :
    (l.take n).getD k 0 = l.getD k 0 := by
  induction l generalizing n k with
  | nil => simp
  | cons x xs ih =>
    cases n with
    | zero => omega
    | succ n =>
      cases k with
      | zero => simp
      | succ k =>
        simp only [List.take_succ_cons, List.getD_cons_succ]
        exact ih n k (by omega)

theorem getD_drop (l : List ℤ) (m k : ℕ) :
    (l.drop m).getD k 0 = l.getD (m + k) 0 := by
  induction l generalizing m with
  | nil => simp
  | cons x xs ih =>
    cases m with
    | zero => simp
    | succ m => simpa [Nat.succ_add] using ih m

/-! ### Ring-buffer append characterization -/

theorem writeRun_apply (xs : List ℤ) (f : ℕ → ℤ) (s j : ℕ) :
    writeRun f s xs j =
      if s ≤ j ∧ j < s + xs.length then xs.getD (j - s) 0 else f j := by
  induction xs generalizing f s with
  | nil =>
    simp only [writeRun, List.length_nil, Nat.add_zero]
    rw [if_neg (by omega)]
  | cons x xs ih =>
    simp only [writeRun, List.length_cons]
    rw [ih]
    unfold setAt
    rcases Nat.lt_trichotomy j s with hlt | heq | hgt
    · rw [if_neg (by omega), if_neg (by omega), if_neg (by omega)]
    · subst heq
      rw [if_neg (by omega), if_pos rfl, if_pos ⟨le_refl j, by omega⟩]
      simp
    · by_cases hlen : j < s + 1 + xs.length
      · rw [if_pos ⟨by omega, hlen⟩, if_pos ⟨by omega, by omega⟩]
        have hd : j - s = (j - (s + 1)) + 1 := by omega
        rw [hd, List.getD_cons_succ]
      · rw [if_neg (by omega), if_neg (by omega), if_neg (by omega)]

/-- `framesToCopy` in `appendToRingBuffer` is `min src.length
availableSpace`. -/
theorem framesToCopy_eq_min (r : Ring) (src : List ℤ) :
    (if bufferCapacity - r.count < src.length
      then bufferCapacity - r.count else src.length) =
      min src.length (bufferCapacity - r.count) := by
  rcases le_or_lt src.length (bufferCapacity - r.count) with h | h
  · rw [if_neg (by omega), min_eq_left h]
  · rw [if_pos h, min_eq_right (by omega)]

theorem appendToRingBuffer_head (r : Ring) (src : List ℤ) :
    ((appendToRingBuffer r src).1).head = r.head := by
  simp only [appendToRingBuffer]
  split <;> split <;> rfl

theorem appendToRingBuffer_count (r : Ring) (src : List ℤ) :
    ((appendToRingBuffer r src).1).count =
      r.count + min src.length (bufferCapacity - r.count) := by
  simp only [appendToRingBuffer]
  split
  · split
    · show r.count = r.count + min src.length (bufferCapacity - r.count)
      omega
    · show r.count + (bufferCapacity - r.count) =
        r.count + min src.length (bufferCapacity - r.count)
      omega
  · split
    · show r.count = r.count + min src.length (bufferCapacity - r.count)
      omega
    · show r.count + src.length =
        r.count + min src.length (bufferCapacity - r.count)
      omega

theorem appendToRingBuffer_dropped (r : Ring) (src : List ℤ) :
    (appendToRingBuffer r src).2 =
      src.length - (bufferCapacity - r.count) := by
  simp only [appendToRingBuffer]
  split <;> split <;> simp <;> omega

/-- The backing store after an append, with `framesToCopy` rewritten as
`min src.length availableSpace`. -/
theorem appendToRingBuffer_buf (r : Ring) (src : List ℤ) :
    ((appendToRingBuffer r src).1).buf =
      if min src.length (bufferCapacity - r.count) = 0 then r.buf
      else if (r.head + r.count) % bufferCapacity +
          min src.length (bufferCapacity - r.count) ≤ bufferCapacity then
        writeRun r.buf ((r.head + r.count) % bufferCapacity)
          (src.take (min src.length (bufferCapacity - r.count)))
      else
        writeRun (writeRun r.buf ((r.head + r.count) % bufferCapacity)
            (src.take (bufferCapacity - (r.head + r.count) % bufferCapacity))) 0
          ((src.take (min src.length (bufferCapacity - r.count))).drop
            (bufferCapacity - (r.head + r.count) % bufferCapacity)) := by
  simp only [appendToRingBuffer]
  split
  · rename_i h1
    have hm : min src.length (bufferCapacity - r.count) = bufferCapacity - r.count := by
      omega
    rw [hm]
    split
    · rfl
    · rfl
  · rename_i h1
    have hm : min src.length (bufferCapacity - r.count) = src.length := by omega
    rw [hm]
    split
    · rfl
    · rfl

/-- Appending never moves previously buffered samples: every logical
offset `j < count` reads the same value after the append. -/
theorem appendToRingBuffer_read_old (r : Ring) (src : List ℤ)
    (hcap : r.count ≤ bufferCapacity) (j : ℕ) (hj : j < r.count) :
    ringRead (appendToRingBuffer r src).1 j = ringRead r j := by
  have hcappos : 0 < bufferCapacity := by norm_num [bufferCapacity]
  unfold ringRead
  rw [appendToRingBuffer_head]
  set n := min src.length (bufferCapacity - r.count) with hn
  have hn2 : n ≤ bufferCapacity - r.count := min_le_right _ _
  set x := (r.head + j) % bufferCapacity with hx
  have hxlt : x < bufferCapacity := Nat.mod_lt _ hcappos
  have hne : ∀ k, k < n →
      x ≠ ((r.head + r.count) % bufferCapacity + k) % bufferCapacity := by
    intro k hk heq
    rw [Nat.mod_add_mod] at heq
    rw [hx, Nat.add_assoc] at heq
    have hmod : j % bufferCapacity = (r.count + k) % bufferCapacity :=
      Nat.ModEq.add_left_cancel' r.head heq
    rw [Nat.mod_eq_of_lt (by omega), Nat.mod_eq_of_lt (by omega)] at hmod
    omega
  rw [appendToRingBuffer_buf, ← hn]
  by_cases h0 : n = 0
  · rw [if_pos h0]
  · rw [if_neg h0]
    set tail := (r.head + r.count) % bufferCapacity with htl
    have htlt : tail < bufferCapacity := Nat.mod_lt _ hcappos
    by_cases hwrap : tail + n ≤ bufferCapacity
    · rw [if_pos hwrap, writeRun_apply]
      rw [if_neg (by
        rw [List.length_take]
        rintro ⟨ha, hb⟩
        exact hne (x - tail) (by omega)
          (by rw [Nat.mod_eq_of_lt (by omega)]; omega))]
    · rw [if_neg hwrap, writeRun_apply]
      have hxs2len : ((src.take n).drop (bufferCapacity - tail)).length =
          n - (bufferCapacity - tail) := by
        rw [List.length_drop, List.length_take]; omega
      rw [if_neg (by
        rw [hxs2len]
        rintro ⟨-, hb⟩
        refine hne (x + (bufferCapacity - tail)) (by omega) ?_
        rw [show tail + (x + (bufferCapacity - tail)) = x + bufferCapacity by omega,
          Nat.add_mod_right, Nat.mod_eq_of_lt hxlt])]
      rw [writeRun_apply, if_neg (by
        rw [List.length_take]
        rintro ⟨ha, hb⟩
        exact hne (x - tail) (by omega)
          (by rw [Nat.mod_eq_of_lt (by omega)]; omega))]

/-- The copied prefix of the incoming block is readable at logical
offsets `count`, `count+1`, …: offset `count + k` reads `src[k]`. -/
theorem appendToRingBuffer_read_new (r : Ring) (src : List ℤ)
    (hcap : r.count ≤ bufferCapacity) (k : ℕ)
    (hk : k < min src.length (bufferCapacity - r.count)) :
    ringRead (appendToRingBuffer r src).1 (r.count + k) = src.getD k 0 := by
  have hcappos : 0 < bufferCapacity := by norm_num [bufferCapacity]
  set n := min src.length (bufferCapacity - r.count) with hn
  have hn1 : n ≤ src.length := min_le_left _ _
  have hn2 : n ≤ bufferCapacity - r.count := min_le_right _ _
  unfold ringRead
  rw [appendToRingBuffer_head]
  have hassoc : (r.head + (r.count + k)) % bufferCapacity =
      ((r.head + r.count) % bufferCapacity + k) % bufferCapacity := by
    rw [Nat.mod_add_mod, Nat.add_assoc]
  rw [hassoc, appendToRingBuffer_buf, ← hn]
  rw [if_neg (by omega)]
  set tail := (r.head + r.count) % bufferCapacity with htl
  have htlt : tail < bufferCapacity := Nat.mod_lt _ hcappos
  by_cases hwrap : tail + n ≤ bufferCapacity
  · rw [if_pos hwrap, writeRun_apply]
    have hidx : (tail + k) % bufferCapacity = tail + k :=
      Nat.mod_eq_of_lt (by omega)
    rw [hidx, if_pos ⟨by omega, by rw [List.length_take]; omega⟩]
    rw [show tail + k - tail = k by omega, getD_take _ _ _ hk]
  · rw [if_neg hwrap, writeRun_apply]
    have hxs2len : ((src.take n).drop (bufferCapacity - tail)).length =
        n - (bufferCapacity - tail) := by
      rw [List.length_drop, List.length_take]; omega
    by_cases hk2 : tail + k < bufferCapacity
    · have hidx : (tail + k) % bufferCapacity = tail + k := Nat.mod_eq_of_lt hk2
      rw [hidx, if_neg (by rw [hxs2len]; omega)]
      rw [writeRun_apply, if_pos ⟨by omega, by rw [List.length_take]; omega⟩]
      rw [show tail + k - tail = k by omega, getD_take _ _ _ (by omega)]
    · have hge : bufferCapacity ≤ tail + k := le_of_not_lt hk2
      have hidx : (tail + k) % bufferCapacity = tail + k - bufferCapacity := by
        rw [Nat.mod_eq_sub_mod hge, Nat.mod_eq_of_lt (by omega)]
      rw [hidx, if_pos ⟨Nat.zero_le _, by rw [hxs2len]; omega⟩]
      rw [Nat.sub_zero, getD_drop,
        show bufferCapacity - tail + (tail + k - bufferCapacity) = k by omega,
        getD_take _ _ _ hk]

/-! ### Mixer loop characterization -/

theorem foldl_mix_general (F : ℕ → ℚ) (l : List ℕ) (a : List ℕ) (b : List ℚ) :
    l.foldl (fun acc i =>
        (acc.1 ++ Sidekick.int16LEBytes (clampI16 (truncQ (F i))),
         acc.2 ++ [F i])) (a, b) =
      (a ++ (l.map (fun i =>
          Sidekick.int16LEBytes (clampI16 (truncQ (F i))))).flatten,
       b ++ l.map F) := by
  induction l generalizing a b with
  | nil => simp
  | cons x xs ih =>
    simp only [List.foldl_cons, List.map_cons, List.flatten_cons]
    rw [ih]
    simp [List.append_assoc]

/-- The mixer loop body equals the spec's per-position formula (the
`let`-bindings of the source zeta-reduce to it). -/
theorem mixChunk_body_eq (sys mic : Ring) (present : Bool) :
    (fun (acc : List ℕ × List ℚ) (i : ℕ) =>
      let micSampleFloat : ℚ := ((ringRead mic i : ℤ) : ℚ)
      let sysSampleFloat : ℚ := if present then ((ringRead sys i : ℤ) : ℚ) else 0
      let mixedFloat := sysSampleFloat * (707 / 1000) + micSampleFloat * (707 / 1000)
      let clamped := clampI16 (truncQ mixedFloat)
      (acc.1 ++ Sidekick.int16LEBytes clamped, acc.2 ++ [mixedFloat])) =
    (fun (acc : List ℕ × List ℚ) (i : ℕ) =>
      (acc.1 ++ Sidekick.int16LEBytes (clampI16 (truncQ (specMixedValue sys mic present i))),
       acc.2 ++ [specMixedValue sys mic present i])) := rfl

/-- The mixer loop, pointwise: the output bytes are the concatenated
encodings of the clamped truncations of the spec's mixed values, and the
RMS list is the list of unclamped mixed values. -/
theorem mixChunk_eq (sys mic : Ring) (p : Bool) :
    mixChunk sys mic p =
      (((List.range framesPerChunk).map (fun i =>
          Sidekick.int16LEBytes (clampI16 (truncQ (specMixedValue sys mic p i))))).flatten,
       (List.range framesPerChunk).map (specMixedValue sys mic p)) := by
  unfold mixChunk
  rw [mixChunk_body_eq sys mic p]
  exact (foldl_mix_general (specMixedValue sys mic p)
    (List.range framesPerChunk) [] []).trans
    (by rw [List.nil_append, List.nil_append])

theorem flatten_const_length (L : List (List ℕ)) (c : ℕ)
    (h : ∀ x ∈ L, x.length = c) : L.flatten.length = c * L.length := by
  induction L with
  | nil => simp
  | cons x xs ih =>
    simp only [List.flatten_cons, List.length_append, List.length_cons]
    rw [h x (List.mem_cons_self x xs),
      ih (fun y hy => h y (List.mem_cons_of_mem x hy))]
    ring

theorem mixChunk_bytes_length (sys mic : Ring) (p : Bool) :
    (mixChunk sys mic p).1.length = bytesPerChunk := by
  rw [mixChunk_eq]
  rw [flatten_const_length _ 2 (by
    intro x hx
    rcases List.mem_map.mp hx with ⟨i, -, rfl⟩
    rfl)]
  simp [List.length_range, framesPerChunk, bytesPerChunk]

theorem clampI16_lb (v : ℤ) : -32768 ≤ clampI16 v := by
  unfold clampI16; omega

theorem clampI16_ub (v : ℤ) : clampI16 v ≤ 32767 := by
  unfold clampI16; omega

/-- Decoding the emitted bytes of one frame yields exactly the clamped
mixed samples. -/
theorem decodePairs_mixChunk (sys mic : Ring) (p : Bool) :
    Sidekick.decodePairs (mixChunk sys mic p).1 =
      (List.range framesPerChunk).map
        (fun i => clampI16 (truncQ (specMixedValue sys mic p i))) := by
  rw [mixChunk_eq]
  exact Sidekick.decodePairs_flatten_map_comp
    (fun i => clampI16 (truncQ (specMixedValue sys mic p i)))
    (List.range framesPerChunk)
    (fun i _ => ⟨clampI16_lb _, clampI16_ub _⟩)

theorem foldl_addsq (l : List ℚ) (a : ℚ) :
    l.foldl (fun acc s => acc + s * s) a = a + (l.map (fun s => s * s)).sum := by
  induction l generalizing a with
  | nil => simp
  | cons x xs ih =>
    simp only [List.foldl_cons, List.map_cons, List.sum_cons]
    rw [ih]
    ring

/-- `meanSquare` is the mean of the squares of the unclamped mixed
values. -/
theorem chunkMeanSquare_eq (st : TapState) :
    chunkMeanSquare st =
      ((List.range framesPerChunk).map
        (fun i => specMixedValue st.sys st.mic (chunkPresent st) i ^ 2)).sum /
        (framesPerChunk : ℚ) := by
  unfold chunkMeanSquare
  rw [mixChunk_eq, foldl_addsq]
  simp [List.map_map, Function.comp_def, pow_two]

theorem chunkMeanSquare_nonneg (st : TapState) : 0 ≤ chunkMeanSquare st := by
  rw [chunkMeanSquare_eq]
  apply div_nonneg _ (by norm_num)
  apply List.sum_nonneg
  intro x hx
  rcases List.mem_map.mp hx with ⟨i, -, rfl⟩
  exact sq_nonneg _

/-! ### The squared-threshold gate agrees with the `sqrt` gate -/

/-- Comparing the mean square against the squared thresholds is the same
as comparing `rms = sqrt(meanSquare)` (the value the source computes)
against the thresholds themselves. -/
theorem vadGate_sq_eq (a : Bool) (ms : ℚ) :
    vadGate (vadOpenThresholdRMS ^ 2) (vadCloseThresholdRMS ^ 2) a ms =
      vadGate ((vadOpenThresholdRMS : ℚ) : ℝ) ((vadCloseThresholdRMS : ℚ) : ℝ) a
        (Real.sqrt ((ms : ℚ) : ℝ)) := by
  have hclose : Real.sqrt ((ms : ℚ) : ℝ) < ((vadCloseThresholdRMS : ℚ) : ℝ) ↔
      ms < vadCloseThresholdRMS ^ 2 := by
    rw [Real.sqrt_lt' (by norm_num [vadCloseThresholdRMS])]
    rw [show (((vadCloseThresholdRMS : ℚ) : ℝ)) ^ 2 =
        ((vadCloseThresholdRMS ^ 2 : ℚ) : ℝ) by push_cast; ring]
    exact_mod_cast Iff.rfl
  have hopen : ((vadOpenThresholdRMS : ℚ) : ℝ) ≤ Real.sqrt ((ms : ℚ) : ℝ) ↔
      vadOpenThresholdRMS ^ 2 ≤ ms := by
    rw [Real.le_sqrt' (by norm_num [vadOpenThresholdRMS])]
    rw [show (((vadOpenThresholdRMS : ℚ) : ℝ)) ^ 2 =
        ((vadOpenThresholdRMS ^ 2 : ℚ) : ℝ) by push_cast; ring]
    exact_mod_cast Iff.rfl
  cases a <;> simp [vadGate, hclose, hopen]

/-- The gate step taken by `flushIfReady` is the source's: the thresholds
against the square root of the mean square. -/
theorem stepVad_eq_sqrt_gate (st : TapState) :
    stepVad st =
      vadGate ((vadOpenThresholdRMS : ℚ) : ℝ) ((vadCloseThresholdRMS : ℚ) : ℝ)
        st.vad (Real.sqrt ((chunkMeanSquare st : ℚ) : ℝ)) :=
  vadGate_sq_eq st.vad (chunkMeanSquare st)

/-! ### `flushIfReady` unfolding and induction -/

theorem flushIfReady_of_lt (st : TapState) (h : st.mic.count < framesPerChunk) :
    flushIfReady st = ([], st) := by
  unfold flushIfReady
  rw [dif_neg (by omega)]

theorem flushIfReady_of_ge (st : TapState) (h : framesPerChunk ≤ st.mic.count) :
    flushIfReady st =
      (stepEntry st :: (flushIfReady (stepState st)).1,
       (flushIfReady (stepState st)).2) := by
  conv_lhs => rw [flushIfReady]
  rw [dif_pos h]

theorem stepState_mic_count (st : TapState) :
    (stepState st).mic.count = st.mic.count - framesPerChunk := rfl

/-- The mixer performs one cycle per full `framesPerChunk` block in the
microphone buffer: exactly `micCount / framesPerChunk` frames. -/
theorem flushIfReady_length_aux :
    ∀ (N : ℕ) (st : TapState), st.mic.count ≤ N →
      (flushIfReady st).1.length = st.mic.count / framesPerChunk := by
  intro N
  have hfpc : framesPerChunk = 1600 := rfl
  induction N with
  | zero =>
    intro st h
    rw [flushIfReady_of_lt st (by omega)]
    exact (Nat.div_eq_of_lt (by omega)).symm
  | succ N ih =>
    intro st h
    by_cases hge : framesPerChunk ≤ st.mic.count
    · rw [flushIfReady_of_ge st hge]
      simp only [List.length_cons]
      rw [ih (stepState st) (by rw [stepState_mic_count]; omega)]
      rw [stepState_mic_count]
      rw [Nat.div_eq_sub_div (by omega) hge]
    · rw [flushIfReady_of_lt st (by omega)]
      exact (Nat.div_eq_of_lt (by omega)).symm

theorem flushIfReady_length (st : TapState) :
    (flushIfReady st).1.length = st.mic.count / framesPerChunk :=
  flushIfReady_length_aux st.mic.count st (Nat.le_refl _)

theorem stepState_mic_buf (st : TapState) :
    (stepState st).mic.buf = st.mic.buf := rfl

/-- Every processed frame carries exactly `bytesPerChunk` output bytes. -/
theorem flushIfReady_bytes_length_aux :
    ∀ (N : ℕ) (st : TapState), st.mic.count ≤ N →
      ∀ e ∈ (flushIfReady st).1, e.bytes.length = bytesPerChunk := by
  intro N
  have hfpc : framesPerChunk = 1600 := rfl
  induction N with
  | zero =>
    intro st h e he
    rw [flushIfReady_of_lt st (by omega)] at he
    simp at he
  | succ N ih =>
    intro st h e he
    by_cases hge : framesPerChunk ≤ st.mic.count
    · rw [flushIfReady_of_ge st hge] at he
      rcases List.mem_cons.mp he with rfl | htl
      · exact mixChunk_bytes_length st.sys st.mic (chunkPresent st)
      · exact ih (stepState st) (by rw [stepState_mic_count]; omega) e htl
    · rw [flushIfReady_of_lt st (by omega)] at he
      simp at he

theorem flushIfReady_bytes_length (st : TapState) :
    ∀ e ∈ (flushIfReady st).1, e.bytes.length = bytesPerChunk :=
  flushIfReady_bytes_length_aux st.mic.count st (Nat.le_refl _)

/-- A frame is written to stdout exactly when the gate is `Active` after
its transition. -/
theorem flushIfReady_emitted_eq_vadAfter_aux :
    ∀ (N : ℕ) (st : TapState), st.mic.count ≤ N →
      (flushIfReady st).1.map (fun e => e.emitted) =
        (flushIfReady st).1.map (fun e => e.vadAfter) := by
  intro N
  have hfpc : framesPerChunk = 1600 := rfl
  induction N with
  | zero =>
    intro st h
    rw [flushIfReady_of_lt st (by omega)]
    rfl
  | succ N ih =>
    intro st h
    by_cases hge : framesPerChunk ≤ st.mic.count
    · rw [flushIfReady_of_ge st hge]
      simp only [List.map_cons]
      rw [ih (stepState st) (by rw [stepState_mic_count]; omega)]
      rfl
    · rw [flushIfReady_of_lt st (by omega)]
      rfl

theorem flushIfReady_emitted_eq_vadAfter (st : TapState) :
    (flushIfReady st).1.map (fun e => e.emitted) =
      (flushIfReady st).1.map (fun e => e.vadAfter) :=
  flushIfReady_emitted_eq_vadAfter_aux st.mic.count st (Nat.le_refl _)

/-- The byte stream of one `flushIfReady` run is a concatenation of
whole `bytesPerChunk`-sized frames. -/
theorem emittedBytes_dvd (st : TapState) :
    bytesPerChunk ∣ (emittedBytes st).length := by
  unfold emittedBytes
  rw [flatten_const_length _ bytesPerChunk (by
    intro x hx
    rcases List.mem_map.mp hx with ⟨e, he, rfl⟩
    exact flushIfReady_bytes_length st e (List.mem_of_mem_filter he))]
  exact Dvd.intro _ rfl

/-- When the system buffer stays starved (`sysCount < framesPerChunk`),
`stepState` does not touch it. -/
theorem stepState_sys_of_starved (st : TapState)
    (hs : st.sys.count < framesPerChunk) :
    (stepState st).sys = st.sys := by
  have hp : chunkPresent st = false := by
    simp only [chunkPresent, decide_eq_false_iff_not]
    omega
  simp [stepState, hp]

/-- A starved system buffer is left untouched by the whole run. -/
theorem flushIfReady_sys_unchanged_aux :
    ∀ (N : ℕ) (st : TapState), st.mic.count ≤ N →
      st.sys.count < framesPerChunk → (flushIfReady st).2.sys = st.sys := by
  intro N
  have hfpc : framesPerChunk = 1600 := rfl
  induction N with
  | zero =>
    intro st h hs
    rw [flushIfReady_of_lt st (by omega)]
  | succ N ih =>
    intro st h hs
    by_cases hge : framesPerChunk ≤ st.mic.count
    · rw [flushIfReady_of_ge st hge]
      have hstep := stepState_sys_of_starved st hs
      have := ih (stepState st) (by rw [stepState_mic_count]; omega)
        (by rw [hstep]; exact hs)
      rw [this, hstep]
    · rw [flushIfReady_of_lt st (by omega)]

theorem flushIfReady_sys_unchanged (st : TapState)
    (hs : st.sys.count < framesPerChunk) :
    (flushIfReady st).2.sys = st.sys :=
  flushIfReady_sys_unchanged_aux st.mic.count st (Nat.le_refl _) hs

/-- With a starved system buffer every produced frame mixes zero in
place of each system sample: its samples are `clamp(trunc(0*0.707 +
mic*0.707))` over some window of the mic store. -/
theorem flushIfReady_zero_sys_aux :
    ∀ (N : ℕ) (st : TapState), st.mic.count ≤ N →
      st.sys.count < framesPerChunk →
      ∀ e ∈ (flushIfReady st).1, ∃ h0,
        Sidekick.decodePairs e.bytes =
          (List.range framesPerChunk).map (fun i =>
            clampI16 (truncQ ((0 : ℚ) * (707 / 1000) +
              ((st.mic.buf ((h0 + i) % bufferCapacity) : ℤ) : ℚ) * (707 / 1000)))) := by
  intro N
  have hfpc : framesPerChunk = 1600 := rfl
  induction N with
  | zero =>
    intro st h hs e he
    rw [flushIfReady_of_lt st (by omega)] at he
    simp at he
  | succ N ih =>
    intro st h hs e he
    by_cases hge : framesPerChunk ≤ st.mic.count
    · rw [flushIfReady_of_ge st hge] at he
      have hp : chunkPresent st = false := by
        simp only [chunkPresent, decide_eq_false_iff_not]
        omega
      rcases List.mem_cons.mp he with rfl | htl
      · refine ⟨st.mic.head, ?_⟩
        show Sidekick.decodePairs (mixChunk st.sys st.mic (chunkPresent st)).1 = _
        rw [decodePairs_mixChunk, hp]
        apply List.map_congr_left
        intro i _
        simp [specMixedValue, ringRead]
      · have hstep := stepState_sys_of_starved st hs
        rcases ih (stepState st) (by rw [stepState_mic_count]; omega)
          (by rw [hstep]; exact hs) e htl with ⟨h0, hh⟩
        exact ⟨h0, by rw [hh]; rfl⟩
    · rw [flushIfReady_of_lt st (by omega)] at he
      simp at he

theorem flushIfReady_zero_sys (st : TapState)
    (hs : st.sys.count < framesPerChunk) :
    ∀ e ∈ (flushIfReady st).1, ∃ h0,
      Sidekick.decodePairs e.bytes =
        (List.range framesPerChunk).map (fun i =>
          clampI16 (truncQ ((0 : ℚ) * (707 / 1000) +
            ((st.mic.buf ((h0 + i) % bufferCapacity) : ℤ) : ℚ) * (707 / 1000)))) :=
  flushIfReady_zero_sys_aux st.mic.count st (Nat.le_refl _) hs

/-- Every PCM write in the standard-output trace is a whole
`bytesPerChunk`-sized frame (the `out.write` path never emits a partial
frame). -/
theorem flushIfReadyStdout_pcm_length (render : ChunkEntry → List ℕ)
    (st : TapState) :
    ∀ w ∈ flushIfReadyStdout render st, ∀ b, w = StdoutWrite.pcm b →
      b.length = bytesPerChunk := by
  intro w hw b hb
  subst hb
  unfold flushIfReadyStdout at hw
  rcases List.mem_flatten.mp hw with ⟨l, hl, hwl⟩
  rcases List.mem_map.mp hl with ⟨e, he, rfl⟩
  by_cases hem : e.emitted
  · rw [if_pos hem] at hwl
    rcases List.mem_cons.mp hwl with heq | h2
    · injection heq with hb2
      rw [hb2]
      exact flushIfReady_bytes_length st e he
    · simp at h2
  · rw [if_neg hem] at hwl
    simp at hwl

/-- Whenever the mixer processes at least one frame, `flushIfReady`
also sends a diagnostic `print` line to standard output — whether or
not the frame passed the gate. -/
theorem flushIfReadyStdout_has_log (render : ChunkEntry → List ℕ)
    (st : TapState) (hm : framesPerChunk ≤ st.mic.count) :
    StdoutWrite.log (render (stepEntry st)) ∈ flushIfReadyStdout render st := by
  unfold flushIfReadyStdout
  rw [flushIfReady_of_ge st hm]
  simp only [List.map_cons, List.flatten_cons]
  by_cases h : (stepEntry st).emitted
  · rw [if_pos h]
    exact List.mem_append_left _ (by simp)
  · rw [if_neg h]
    exact List.mem_append_left _ (by simp)

end AudioTap

namespace AudioCaptureHost

/-!
## Host bridge (`src/main/utils/audio-capture.ts`)

The accumulation buffer `rawAudioBuffer` is a byte buffer fed by the
capture process's stdout; `getAudioBufferBase64` takes a snapshot and
clears it.  We model the buffer as a `List ℕ` of bytes; the function
returns the bytes that the source base64-encodes, together with the new
buffer state (the source mutates the module-level `rawAudioBuffer`).
-/

/-- `SAMPLE_RATE = 16000` (Hz). -/
def SAMPLE_RATE : ℕ := 16000

/-- `BYTES_PER_SAMPLE = 2` (16-bit PCM). -/
def BYTES_PER_SAMPLE : ℕ := 2

/-- `MAX_BUFFER_SIZE = 8 * 1024 * 1024` (8 MiB). -/
def MAX_BUFFER_SIZE : ℕ := 8 * 1024 * 1024

/-- `MIN_BUFFER_SIZE = SAMPLE_RATE * BYTES_PER_SAMPLE * 1` (one second,
32000 bytes). -/
def MIN_BUFFER_SIZE : ℕ := SAMPLE_RATE * BYTES_PER_SAMPLE * 1

/-- The size trim: `if (rawAudioBuffer.length > MAX_BUFFER_SIZE)` keep
the most recent `MAX_BUFFER_SIZE` bytes
(`rawAudioBuffer.slice(rawAudioBuffer.length - MAX_BUFFER_SIZE)`). -/
def trimToMax (buf : List ℕ) : List ℕ :=
  if MAX_BUFFER_SIZE < buf.length
    then buf.drop (buf.length - MAX_BUFFER_SIZE) else buf

/-- The alignment trim: `if (rawAudioBuffer.length % 2 !== 0)` drop the
trailing byte (`rawAudioBuffer.slice(0, rawAudioBuffer.length - 1)`). -/
def trimToEven (b : List ℕ) : List ℕ :=
  if b.length % 2 ≠ 0 then b.take (b.length - 1) else b

/-- `getAudioBufferBase64`: returns `(snapshot bytes, new buffer)`.
Mirrors the source: below `MIN_BUFFER_SIZE` it returns empty and leaves
the buffer untouched; otherwise it applies the size trim then the
alignment trim, returns the result (which the source base64-encodes)
and clears the buffer (`rawAudioBuffer = Buffer.alloc(0)`). -/
def getAudioBufferBase64 (buf : List ℕ) : List ℕ × List ℕ :=
  if buf.length < MIN_BUFFER_SIZE then
    ([], buf)
  else
    (trimToEven (trimToMax buf), [])

/-- `clearAudioBuffer`: `rawAudioBuffer = Buffer.alloc(0)`. -/
def clearAudioBuffer (_buf : List ℕ) : List ℕ := []

/-!
### `stopAudioCapture` termination protocol

`stopAudioCapture` is event-driven: it sends `SIGTERM`, arms a 1000 ms
timer that sends `SIGKILL` if the child-process handle is still set, and
resets `audioCaptureProcess`/`isActive` inside the `'exit'` listener (or
in the `catch` block if `kill` throws synchronously).  We model one
invocation as a pure function of the environment's scheduling choices:
whether the child's exit event arrives before the force-kill timer,
whether it ever arrives at all, and whether `kill('SIGTERM')` throws.
-/

/-- A POSIX signal sent by the host bridge. -/
inductive StopSignal
  | sigterm
  | sigkill
  deriving DecidableEq, Repr

/-- Environment choices for one `stopAudioCapture` invocation. -/
structure StopEnv where
  /-- The child's `'exit'` event fires before the 1000 ms force-kill timer. -/
  exitsBeforeTimeout : Bool
  /-- The child's `'exit'` event eventually fires (possibly only after
  `SIGKILL`). -/
  exitsEventually : Bool
  /-- `audioCaptureProcess.kill('SIGTERM')` throws synchronously. -/
  killThrows : Bool
  deriving DecidableEq, Repr

/-- Observable outcome of one `stopAudioCapture` invocation. -/
structure StopOutcome where
  /-- Signals delivered to the child, in order. -/
  signalsSent : List StopSignal
  /-- `audioCaptureProcess` is `null` (and `isActive` is `false`) once all
  of the invocation's handlers have run. -/
  handleNull : Bool
  /-- The value the returned promise resolves with; `none` if it never
  resolves. -/
  resolved : Option Bool
  deriving DecidableEq, Repr

/-- `stopAudioCapture`, as a function of the environment schedule.
Traces the source: no process ⇒ resolve `false`; `kill` throwing ⇒ the
`catch` block nulls the handle and resolves `false`; exit before the
timer ⇒ only `SIGTERM` was sent, the `'exit'` listener nulls the handle
and resolves `true`; exit only later ⇒ the timer fires `SIGKILL` first,
then the `'exit'` listener runs; no exit event ever ⇒ `SIGKILL` was sent
but the handle is never nulled and the promise never resolves. -/
def stopAudioCapture (running : Bool) (env : StopEnv) : StopOutcome :=
  if !running then
    { signalsSent := [], handleNull := true, resolved := some false }
  else if env.killThrows then
    { signalsSent := [], handleNull := true, resolved := some false }
  else if env.exitsBeforeTimeout then
    { signalsSent := [.sigterm], handleNull := true, resolved := some true }
  else if env.exitsEventually then
    { signalsSent := [.sigterm, .sigkill], handleNull := true, resolved := some true }
  else
    { signalsSent := [.sigterm, .sigkill], handleNull := false, resolved := none }

end AudioCaptureHost

namespace AudioCaptureHost

/-! ### Snapshot lemmas -/

theorem MIN_BUFFER_SIZE_eq : MIN_BUFFER_SIZE = 32000 := rfl

theorem MAX_BUFFER_SIZE_eq : MAX_BUFFER_SIZE = 8388608 := rfl

attribute [irreducible] MIN_BUFFER_SIZE MAX_BUFFER_SIZE

/-- Short buffers: the snapshot is empty and the buffer untouched. -/
theorem getAudioBufferBase64_short (buf : List ℕ)
    (h : buf.length < MIN_BUFFER_SIZE) :
    getAudioBufferBase64 buf = ([], buf) := by
  simp [getAudioBufferBase64, h]

/-- Long-enough buffers: the trimmed result and an emptied buffer. -/
theorem getAudioBufferBase64_ready (buf : List ℕ)
    (h : ¬ buf.length < MIN_BUFFER_SIZE) :
    getAudioBufferBase64 buf = (trimToEven (trimToMax buf), []) := by
  simp only [getAudioBufferBase64, h, if_false]

theorem trimToMax_length (buf : List ℕ) :
    (trimToMax buf).length = min buf.length MAX_BUFFER_SIZE := by
  unfold trimToMax
  split <;> rename_i h
  · rw [List.length_drop]; omega
  · omega

theorem trimToMax_suffix (buf : List ℕ) : (trimToMax buf).IsSuffix buf := by
  unfold trimToMax
  split
  · exact List.drop_suffix _ _
  · exact List.suffix_refl buf

theorem trimToEven_length (b : List ℕ) :
    (trimToEven b).length = b.length - b.length % 2 := by
  unfold trimToEven
  split <;> rename_i h
  · rw [List.length_take]; omega
  · omega

theorem trimToEven_of_even (b : List ℕ) (h : b.length % 2 = 0) :
    trimToEven b = b := by
  unfold trimToEven
  rw [if_neg (by omega)]

/-- Over the limit, the snapshot is exactly the most recent
`MAX_BUFFER_SIZE` bytes: the trimmed length `MAX_BUFFER_SIZE` is even, so
the alignment trim does not fire. -/
theorem getAudioBufferBase64_over (buf : List ℕ)
    (h : MAX_BUFFER_SIZE < buf.length) :
    getAudioBufferBase64 buf =
      (buf.drop (buf.length - MAX_BUFFER_SIZE), []) := by
  have hmin : ¬ buf.length < MIN_BUFFER_SIZE := by
    rw [MIN_BUFFER_SIZE_eq]; rw [MAX_BUFFER_SIZE_eq] at h; omega
  have hmax : trimToMax buf = buf.drop (buf.length - MAX_BUFFER_SIZE) := by
    unfold trimToMax
    rw [if_pos h]
  have heven : (trimToMax buf).length % 2 = 0 := by
    have h8 : MAX_BUFFER_SIZE = 8388608 := MAX_BUFFER_SIZE_eq
    rw [trimToMax_length]
    omega
  rw [getAudioBufferBase64_ready buf hmin, trimToEven_of_even _ heven, hmax]

end AudioCaptureHost

/-!
## Claim theorems

One theorem per claim of the specification review, stated over the
embedded definitions above.
-/

open AudioTap AudioCaptureHost

/-- C1: The voice-activity gate is a two-state hysteresis machine with
initial state `Silent` (`false`) that, per frame, first transitions
`Silent → Active` when `rms ≥ openThreshold` and `Active → Silent` when
`rms < closeThreshold` (otherwise keeping its state), and then forwards
the frame to the output sink iff the post-transition state is `Active`;
with the code's thresholds `(open = 150, close = 100)` the RMS sequence
`[50, 160, 120, 90, 160]` yields the state sequence
`[Silent, Active, Active, Silent, Active]`.  The last conjunct ties the
gate step used by `flushIfReady` (squared thresholds against the mean
square) to the source's comparison of the thresholds against
`rms = sqrt(meanSquare)`. -/
theorem claim_C1_vad_hysteresis :
    vadOpenThresholdRMS = 150 ∧
    vadCloseThresholdRMS = 100 ∧
    initialState.vad = false ∧
    (∀ r : ℚ, vadOpenThresholdRMS ≤ r →
      vadGate vadOpenThresholdRMS vadCloseThresholdRMS false r = true) ∧
    (∀ r : ℚ, r < vadOpenThresholdRMS →
      vadGate vadOpenThresholdRMS vadCloseThresholdRMS false r = false) ∧
    (∀ r : ℚ, r < vadCloseThresholdRMS →
      vadGate vadOpenThresholdRMS vadCloseThresholdRMS true r = false) ∧
    (∀ r : ℚ, vadCloseThresholdRMS ≤ r →
      vadGate vadOpenThresholdRMS vadCloseThresholdRMS true r = true) ∧
    (List.scanl (vadGate vadOpenThresholdRMS vadCloseThresholdRMS) false
      [50, 160, 120, 90, 160]).drop 1 = [false, true, true, false, true] ∧
    (∀ st : TapState, (flushIfReady st).1.map (fun e => e.emitted) =
      (flushIfReady st).1.map (fun e => e.vadAfter)) ∧
    (∀ st : TapState, stepVad st =
      vadGate ((vadOpenThresholdRMS : ℚ) : ℝ) ((vadCloseThresholdRMS : ℚ) : ℝ)
        st.vad (Real.sqrt ((chunkMeanSquare st : ℚ) : ℝ))) := by
  refine ⟨rfl, rfl, rfl, ?_, ?_, ?_, ?_, by decide,
    flushIfReady_emitted_eq_vadAfter, stepVad_eq_sqrt_gate⟩
  · intro r h
    simp [vadGate, h]
  · intro r h
    simp [vadGate, not_le.mpr h]
  · intro r h
    simp [vadGate, h]
  · intro r h
    simp [vadGate, not_lt.mpr h]

/-- Witness for C1 at concrete RMS values. -/
theorem claim_C1_vad_hysteresis_witness :
    vadGate vadOpenThresholdRMS vadCloseThresholdRMS false 160 = true ∧
    vadGate vadOpenThresholdRMS vadCloseThresholdRMS false 120 = false ∧
    vadGate vadOpenThresholdRMS vadCloseThresholdRMS true 90 = false ∧
    vadGate vadOpenThresholdRMS vadCloseThresholdRMS true 120 = true :=
  ⟨claim_C1_vad_hysteresis.2.2.2.1 160 (by decide),
   claim_C1_vad_hysteresis.2.2.2.2.1 120 (by decide),
   claim_C1_vad_hysteresis.2.2.2.2.2.1 90 (by decide),
   claim_C1_vad_hysteresis.2.2.2.2.2.2.1 120 (by decide)⟩

/-- C2: In every mixed frame, each of the `framesPerChunk` output samples
is `clamp(sys*0.707 + mic*0.707, int16_min, int16_max)` of the
corresponding system and microphone samples (the `Float → Int` conversion
truncating toward zero, as Swift's `Int(_:)` does), and the frame's
loudness is `sqrt(sumSquares / framesPerChunk)` where `sumSquares` sums
the squares of the *unclamped* mixed values. -/
theorem claim_C2_mixing_formula (st : TapState) :
    Sidekick.decodePairs (stepEntry st).bytes =
      (List.range framesPerChunk).map
        (fun i => clampI16 (truncQ (specMixedValue st.sys st.mic (chunkPresent st) i))) ∧
    (Sidekick.decodePairs (stepEntry st).bytes).length = framesPerChunk ∧
    (stepEntry st).bytes.length = bytesPerChunk ∧
    (stepEntry st).meanSquare =
      ((List.range framesPerChunk).map
        (fun i => specMixedValue st.sys st.mic (chunkPresent st) i ^ 2)).sum /
        (framesPerChunk : ℚ) ∧
    Real.sqrt (((stepEntry st).meanSquare : ℝ)) =
      Real.sqrt (((((List.range framesPerChunk).map
        (fun i => specMixedValue st.sys st.mic (chunkPresent st) i ^ 2)).sum /
        (framesPerChunk : ℚ) : ℚ) : ℝ)) := by
  have hdec : Sidekick.decodePairs (stepEntry st).bytes =
      (List.range framesPerChunk).map
        (fun i => clampI16 (truncQ (specMixedValue st.sys st.mic (chunkPresent st) i))) :=
    decodePairs_mixChunk st.sys st.mic (chunkPresent st)
  have hms : (stepEntry st).meanSquare =
      ((List.range framesPerChunk).map
        (fun i => specMixedValue st.sys st.mic (chunkPresent st) i ^ 2)).sum /
        (framesPerChunk : ℚ) := chunkMeanSquare_eq st
  refine ⟨hdec, ?_, mixChunk_bytes_length st.sys st.mic (chunkPresent st), hms, ?_⟩
  · rw [hdec]
    simp [List.length_map, List.length_range]
  · exact congrArg (fun q : ℚ => Real.sqrt ((q : ℚ) : ℝ)) hms

/-- C3: The mixer runs a mix cycle whenever (and only while) the mic
ring buffer holds at least `framesPerChunk` samples — exactly
`micCount / framesPerChunk` cycles per run; when the system buffer holds
fewer than `framesPerChunk` samples, zero is substituted for every system
sample (each produced frame's samples are `clamp(trunc(0*0.707 +
mic*0.707))` over a window of the mic store), the system buffer is not
consumed, and frames are still produced from the real mic samples. -/
theorem claim_C3_mic_driven (st : TapState)
    (hm : framesPerChunk ≤ st.mic.count) (hs : st.sys.count < framesPerChunk) :
    (∀ st' : TapState, (flushIfReady st').1.length = st'.mic.count / framesPerChunk) ∧
    (flushIfReady st).1 ≠ [] ∧
    (flushIfReady st).2.sys = st.sys ∧
    ∀ e ∈ (flushIfReady st).1, ∃ h0,
      Sidekick.decodePairs e.bytes =
        (List.range framesPerChunk).map (fun i =>
          clampI16 (truncQ ((0 : ℚ) * (707 / 1000) +
            ((st.mic.buf ((h0 + i) % bufferCapacity) : ℤ) : ℚ) * (707 / 1000)))) := by
  refine ⟨flushIfReady_length, ?_, flushIfReady_sys_unchanged st hs,
    flushIfReady_zero_sys st hs⟩
  intro hnil
  have hlen := flushIfReady_length st
  rw [hnil] at hlen
  have h1 : 1 ≤ st.mic.count / framesPerChunk :=
    (Nat.one_le_div_iff (by norm_num [framesPerChunk])).mpr hm
  simp at hlen
  omega

/-- Witness for C3: a state with one full mic chunk and an empty system
buffer. -/
theorem claim_C3_mic_driven_witness :
    (flushIfReady ⟨⟨fun _ => 0, 0, 0⟩, ⟨fun _ => 0, 0, 1600⟩, false⟩).2.sys =
      (⟨⟨fun _ => 0, 0, 0⟩, ⟨fun _ => 0, 0, 1600⟩, false⟩ : TapState).sys ∧
    (flushIfReady ⟨⟨fun _ => 0, 0, 0⟩, ⟨fun _ => 0, 0, 1600⟩, false⟩).1 ≠ [] :=
  ⟨(claim_C3_mic_driven _ (by decide) (by decide)).2.2.1,
   (claim_C3_mic_driven _ (by decide) (by decide)).2.1⟩

/-- C4: Appending a block to a ring buffer copies exactly the prefix
that fits (`min src.length (capacity - count)` samples), drops exactly
the excess from the tail of the incoming block and reports that dropped
count (which the source logs), preserves every previously buffered
sample, and keeps `count ≤ capacity` after the append and after any
subsequent consume (counts are naturals, so `0 ≤ count` throughout). -/
theorem claim_C4_ring_append (r : Ring) (src : List ℤ)
    (hcap : r.count ≤ bufferCapacity) :
    ((appendToRingBuffer r src).1).count =
      r.count + min src.length (bufferCapacity - r.count) ∧
    ((appendToRingBuffer r src).1).count ≤ bufferCapacity ∧
    (appendToRingBuffer r src).2 = src.length - (bufferCapacity - r.count) ∧
    (∀ j, j < r.count →
      ringRead (appendToRingBuffer r src).1 j = ringRead r j) ∧
    (∀ k, k < min src.length (bufferCapacity - r.count) →
      ringRead (appendToRingBuffer r src).1 (r.count + k) = src.getD k 0) ∧
    (∀ n, (consume (appendToRingBuffer r src).1 n).count ≤ bufferCapacity) := by
  have hcount := appendToRingBuffer_count r src
  refine ⟨hcount, by rw [hcount]; omega, appendToRingBuffer_dropped r src,
    appendToRingBuffer_read_old r src hcap,
    appendToRingBuffer_read_new r src hcap, ?_⟩
  intro n
  show ((appendToRingBuffer r src).1).count - n ≤ bufferCapacity
  rw [hcount]
  omega

/-- Witness for C4 at an empty ring and a three-sample block. -/
theorem claim_C4_ring_append_witness :
    (⟨fun _ => 0, 0, 0⟩ : Ring).count ≤ bufferCapacity ∧
    ((appendToRingBuffer ⟨fun _ => 0, 0, 0⟩ [1, 2, 3]).1).count ≤ bufferCapacity :=
  ⟨by decide, (claim_C4_ring_append ⟨fun _ => 0, 0, 0⟩ [1, 2, 3] (by decide)).2.1⟩

/-- C5 (code bug): the claimed invariant — every byte sequence the
capture process writes to its output channel has a length that is an
exact multiple of `bytesPerChunk` — is the documented intent (the
helper's own README: raw PCM to stdout; TECHNICAL notes: errors to
stderr; the host's stdout handler accumulates the channel as raw PCM),
and it does hold of the `out.write` path: every PCM write in the
standard-output trace is exactly `bytesPerChunk` bytes, and their
concatenation's length is a multiple of `bytesPerChunk`.  But the code
also sends Swift `print` diagnostics to the same standard output:
already at startup the fixed 54-byte line modelled by `startupLogLine`
(54 is not a multiple of `bytesPerChunk`), and then, for every frame the
mixer processes, a per-chunk log line — so the output channel carries
byte sequences that are not whole frames, violating the claim. -/
theorem claim_C5_whole_chunks_bug (render : ChunkEntry → List ℕ)
    (st : TapState) :
    (∀ w ∈ flushIfReadyStdout render st, ∀ b, w = StdoutWrite.pcm b →
      b.length = bytesPerChunk) ∧
    bytesPerChunk ∣ (emittedBytes st).length ∧
    startupLogLine ≠ [] ∧
    startupLogLine.length = 54 ∧
    ¬ bytesPerChunk ∣ startupLogLine.length ∧
    (framesPerChunk ≤ st.mic.count →
      StdoutWrite.log (render (stepEntry st)) ∈ flushIfReadyStdout render st) :=
  ⟨flushIfReadyStdout_pcm_length render st, emittedBytes_dvd st,
   by decide, by decide, by decide, flushIfReadyStdout_has_log render st⟩

/-- Witness for C5's code-bug theorem: a state holding one full mic
chunk, at whose processing a diagnostic line lands on standard output
among the writes. -/
theorem claim_C5_whole_chunks_bug_witness :
    framesPerChunk ≤
      (⟨⟨fun _ => 0, 0, 0⟩, ⟨fun _ => 0, 0, 1600⟩, false⟩ : TapState).mic.count ∧
    ¬ bytesPerChunk ∣ startupLogLine.length ∧
    StdoutWrite.log startupLogLine ∈
      flushIfReadyStdout (fun _ => startupLogLine)
        ⟨⟨fun _ => 0, 0, 0⟩, ⟨fun _ => 0, 0, 1600⟩, false⟩ :=
  ⟨by decide,
   (claim_C5_whole_chunks_bug (fun _ => startupLogLine)
     ⟨⟨fun _ => 0, 0, 0⟩, ⟨fun _ => 0, 0, 1600⟩, false⟩).2.2.2.2.1,
   (claim_C5_whole_chunks_bug (fun _ => startupLogLine)
     ⟨⟨fun _ => 0, 0, 0⟩, ⟨fun _ => 0, 0, 1600⟩, false⟩).2.2.2.2.2 (by decide)⟩

/-- The snapshot's byte count is always even (`0` counts as even). -/
theorem getAudioBufferBase64_even_length (buf : List ℕ) :
    (getAudioBufferBase64 buf).1.length % 2 = 0 := by
  unfold getAudioBufferBase64
  split
  · rfl
  · show (trimToEven (trimToMax buf)).length % 2 = 0
    have h8 : MAX_BUFFER_SIZE = 8388608 := MAX_BUFFER_SIZE_eq
    rw [trimToEven_length]
    omega

/-- C6: `takeSnapshot` (`getAudioBufferBase64`) returns an empty result
below `MIN_BUFFER_SIZE` accumulated bytes; above `MAX_BUFFER_SIZE` it
returns exactly the most recent `MAX_BUFFER_SIZE` bytes (so at most
`MAX_BUFFER_SIZE`, a suffix of the buffer); and every result has an even
byte count. -/
theorem claim_C6_snapshot_bounds (buf : List ℕ) :
    (buf.length < MIN_BUFFER_SIZE → (getAudioBufferBase64 buf).1 = []) ∧
    (MAX_BUFFER_SIZE < buf.length →
      (getAudioBufferBase64 buf).1.length ≤ MAX_BUFFER_SIZE ∧
      (getAudioBufferBase64 buf).1 <:+ buf ∧
      (getAudioBufferBase64 buf).1 = buf.drop (buf.length - MAX_BUFFER_SIZE)) ∧
    Even (getAudioBufferBase64 buf).1.length := by
  refine ⟨?_, ?_, Nat.even_iff.mpr (getAudioBufferBase64_even_length buf)⟩
  · intro h
    rw [getAudioBufferBase64_short buf h]
  · intro h
    rw [getAudioBufferBase64_over buf h]
    refine ⟨?_, List.drop_suffix _ _, rfl⟩
    rw [List.length_drop]
    omega

/-- Witness for C6: a short buffer and an over-limit buffer. -/
theorem claim_C6_snapshot_bounds_witness :
    (getAudioBufferBase64 (List.replicate 10 0)).1 = [] ∧
    (getAudioBufferBase64 (List.replicate (MAX_BUFFER_SIZE + 100) 0)).1.length ≤
      MAX_BUFFER_SIZE :=
  ⟨(claim_C6_snapshot_bounds _).1
     (by rw [List.length_replicate, MIN_BUFFER_SIZE_eq]; omega),
   ((claim_C6_snapshot_bounds _).2.1
     (by rw [List.length_replicate]; omega)).1⟩

/-- C7 counterexample: with `MAX_BUFFER_SIZE + 100` accumulated bytes
(the claim's own scenario) the snapshot holds `MAX_BUFFER_SIZE` bytes,
not `MAX_BUFFER_SIZE - 1`: after trimming to the most recent
`MAX_BUFFER_SIZE` bytes the length is even (`MAX_BUFFER_SIZE` is even),
so the alignment trim never fires after a size trim. -/
theorem claim_C7_counterexample :
    ((getAudioBufferBase64
      (List.replicate (MAX_BUFFER_SIZE + 100) 0)).1).length ≠
      MAX_BUFFER_SIZE - 1 := by
  rw [getAudioBufferBase64_over _ (by rw [List.length_replicate]; omega)]
  rw [List.length_drop, List.length_replicate]
  have h8 : MAX_BUFFER_SIZE = 8388608 := MAX_BUFFER_SIZE_eq
  omega

/-- C7 amended: if the accumulation buffer holds `MAX_BUFFER_SIZE + 100`
bytes (an even total, since `MAX_BUFFER_SIZE` is even), `takeSnapshot`
returns exactly `MAX_BUFFER_SIZE` bytes — the most recent ones, i.e.
the buffer minus its oldest 100 bytes — and clears the buffer; no
further alignment trim applies. -/
theorem claim_C7_amended (buf : List ℕ)
    (h : buf.length = MAX_BUFFER_SIZE + 100) :
    (getAudioBufferBase64 buf).1.length = MAX_BUFFER_SIZE ∧
    (getAudioBufferBase64 buf).1 = buf.drop 100 ∧
    (getAudioBufferBase64 buf).2 = [] := by
  have hover : MAX_BUFFER_SIZE < buf.length := by omega
  rw [getAudioBufferBase64_over buf hover]
  refine ⟨?_, ?_, rfl⟩
  · rw [List.length_drop]
    omega
  · rw [h, show MAX_BUFFER_SIZE + 100 - MAX_BUFFER_SIZE = 100 from by omega]

/-- Witness for C7's amended claim. -/
theorem claim_C7_amended_witness :
    (List.replicate (MAX_BUFFER_SIZE + 100) (0 : ℕ)).length =
      MAX_BUFFER_SIZE + 100 ∧
    (getAudioBufferBase64
      (List.replicate (MAX_BUFFER_SIZE + 100) 0)).1.length = MAX_BUFFER_SIZE :=
  ⟨by rw [List.length_replicate],
   (claim_C7_amended _ (by rw [List.length_replicate])).1⟩

/-- C8: `takeSnapshot` consumes the buffer: with at least
`MIN_BUFFER_SIZE` bytes accumulated it returns a non-empty result and
clears the buffer, so a second call with nothing accumulated in between
returns an empty result (and leaves the buffer empty) — successive
snapshots never overlap. -/
theorem claim_C8_snapshot_consumes (buf : List ℕ)
    (h : MIN_BUFFER_SIZE ≤ buf.length) :
    (getAudioBufferBase64 buf).1 ≠ [] ∧
    (getAudioBufferBase64 buf).2 = [] ∧
    (getAudioBufferBase64 ((getAudioBufferBase64 buf).2)).1 = [] ∧
    (getAudioBufferBase64 ((getAudioBufferBase64 buf).2)).2 = [] := by
  have hready : ¬ buf.length < MIN_BUFFER_SIZE := not_lt.mpr h
  have hsnd : (getAudioBufferBase64 buf).2 = [] := by
    rw [getAudioBufferBase64_ready buf hready]
  have hempty : getAudioBufferBase64 ([] : List ℕ) = ([], []) := by
    apply getAudioBufferBase64_short
    rw [MIN_BUFFER_SIZE_eq]
    simp
  have hne : (getAudioBufferBase64 buf).1 ≠ [] := by
    rw [getAudioBufferBase64_ready buf hready]
    show trimToEven (trimToMax buf) ≠ []
    intro hnil
    have hlen := congrArg List.length hnil
    rw [trimToEven_length, trimToMax_length] at hlen
    simp at hlen
    have h8 : MAX_BUFFER_SIZE = 8388608 := MAX_BUFFER_SIZE_eq
    have h32 : MIN_BUFFER_SIZE = 32000 := MIN_BUFFER_SIZE_eq
    omega
  refine ⟨hne, hsnd, ?_, ?_⟩
  · rw [hsnd, hempty]
  · rw [hsnd, hempty]

/-- Witness for C8 at a buffer of exactly `MIN_BUFFER_SIZE` zeros. -/
theorem claim_C8_snapshot_consumes_witness :
    MIN_BUFFER_SIZE ≤ (List.replicate 32000 (0 : ℕ)).length ∧
    (getAudioBufferBase64
      ((getAudioBufferBase64 (List.replicate 32000 0)).2)).1 = [] :=
  ⟨by rw [List.length_replicate, MIN_BUFFER_SIZE_eq],
   (claim_C8_snapshot_consumes _
     (by rw [List.length_replicate, MIN_BUFFER_SIZE_eq])).2.2.1⟩

/-- C9 counterexample: in the schedule where the child process never
emits its `'exit'` event (even after `SIGKILL`), `stopAudioCapture` has
sent both signals but the process-handle state is never reset and the
returned promise never resolves — the reset is not unconditional, it
happens in the `'exit'` listener. -/
theorem claim_C9_counterexample :
    (stopAudioCapture true ⟨false, false, false⟩).handleNull = false ∧
    (stopAudioCapture true ⟨false, false, false⟩).signalsSent =
      [StopSignal.sigterm, StopSignal.sigkill] ∧
    (stopAudioCapture true ⟨false, false, false⟩).resolved = none :=
  ⟨rfl, rfl, rfl⟩

/-- C9 amended: with a running capture process, `stop()` first sends
`SIGTERM` (unless the `kill` call itself throws, in which case the
`catch` block resets the handle state); if the exit event does not
arrive within the bounded 1000 ms interval it escalates to `SIGKILL`;
the process-handle state is reset exactly when the exit notification
arrives (or the `catch` path runs) — and in the schedule where no exit
notification ever arrives, the handle is not reset and the stop promise
never resolves. -/
theorem claim_C9_amended (env : StopEnv) :
    (stopAudioCapture true env).signalsSent =
      (if env.killThrows then []
       else StopSignal.sigterm ::
         (if env.exitsBeforeTimeout then [] else [StopSignal.sigkill])) ∧
    ((stopAudioCapture true env).handleNull =
      (env.killThrows || (env.exitsBeforeTimeout || env.exitsEventually))) ∧
    ((stopAudioCapture true env).resolved = none ↔
      (stopAudioCapture true env).handleNull = false) ∧
    (stopAudioCapture false env).signalsSent = [] := by
  rcases env with ⟨e1, e2, e3⟩
  cases e1 <;> cases e2 <;> cases e3 <;> decide

/-- C10: when fewer than `MIN_BUFFER_SIZE` bytes are accumulated, the
snapshot returns empty and leaves the accumulation buffer completely
unchanged, so the buffered bytes are retained for a later snapshot. -/
theorem claim_C10_underrun_preserves (buf : List ℕ)
    (h : buf.length < MIN_BUFFER_SIZE) :
    getAudioBufferBase64 buf = ([], buf) :=
  getAudioBufferBase64_short buf h

/-- Witness for C10 at a three-byte buffer. -/
theorem claim_C10_underrun_preserves_witness :
    ([1, 2, 3] : List ℕ).length < MIN_BUFFER_SIZE ∧
    getAudioBufferBase64 [1, 2, 3] = ([], [1, 2, 3]) :=
  ⟨by norm_num [MIN_BUFFER_SIZE_eq],
   claim_C10_underrun_preserves _ (by norm_num [MIN_BUFFER_SIZE_eq])⟩
